import Mathlib

/-!
Shallow embedding of the Highway-Bill earthwork calculator
(src/utils/calculator.ts) and proofs about it.

Modelling conventions:
* JavaScript numbers are modelled as exact rationals; the floating-point
  representation itself is not modelled.
* NaN is modelled by Option (none = NaN); thrown exceptions by Except.
* Strings are modelled as lists of characters; String values are converted
  at the boundary via String.data.
* Number and parseFloat are modelled for the plain decimal grammar
  (sign, digits, fraction, exponent); hexadecimal and Infinity forms,
  which cannot occur in survey tokens, are mapped to none.
-/

namespace Earthwork

/-! ### Characters and basic string helpers -/

/-- Whitespace characters recognised by the model of String.prototype.trim. -/
def isWs (ch : Char) : Bool :=
  ch = ' ' || ch = '\t' || ch = '\n' || ch = '\r' || ch = '\x0b' || ch = '\x0c'

/-- Model of String.prototype.trim on character lists. -/
def trim (l : List Char) : List Char :=
  (((l.dropWhile isWs).reverse).dropWhile isWs).reverse

/-- Split a character list at every newline character. -/
def splitOnNl : List Char → List (List Char)
  | [] => [[]]
  | c :: cs =>
    if c = '\n' then [] :: splitOnNl cs
    else
      match splitOnNl cs with
      | [] => [[c]]
      | l :: ls => (c :: l) :: ls

/-- Remove a single trailing carriage return, completing the split on
the regular expression matching an optional CR followed by LF. -/
def stripCr (l : List Char) : List Char :=
  match l.getLast? with
  | some '\r' => l.dropLast
  | _ => l

/-- Model of csvData.trim().split on CR-optional newlines followed by the
filter keeping lines whose trimmed form is nonempty. -/
def jsLines (cs : List Char) : List (List Char) :=
  ((splitOnNl (trim cs)).map stripCr).filter (fun l => !(trim l).isEmpty)

/-- Cell delimiters: comma or tab. -/
def isDelim (ch : Char) : Bool := ch = ',' || ch = '\t'

/-- Split on every single delimiter character, keeping empty fields. -/
def splitAllDelim : List Char → List (List Char)
  | [] => [[]]
  | c :: cs =>
    if isDelim c then [] :: splitAllDelim cs
    else
      match splitAllDelim cs with
      | [] => [[c]]
      | f :: rest => (c :: f) :: rest

/-- Model of String.prototype.split on one-or-more delimiter runs: runs of
consecutive delimiters act as a single separator, so interior empty fields
vanish while a leading or trailing empty field is kept. -/
def jsSplitCells (l : List Char) : List (List Char) :=
  match splitAllDelim l with
  | [] => []
  | f :: rest =>
    match rest.reverse with
    | [] => [f]
    | lastF :: midRev => f :: (midRev.reverse.filter (fun x => !x.isEmpty)) ++ [lastF]

/-- ASCII lower-casing of a character, enough for the header names in scope. -/
def lowerChar (c : Char) : Char :=
  if 65 ≤ c.toNat ∧ c.toNat ≤ 90 then Char.ofNat (c.toNat + 32) else c

/-- ASCII lower-casing of a character list. -/
def toLowerL (l : List Char) : List Char := l.map lowerChar

/-- Does the second list start with the first one? -/
def leadsWith : List Char → List Char → Bool
  | [], _ => true
  | _ :: _, [] => false
  | a :: as, b :: bs => a = b && leadsWith as bs

/-- Model of String.prototype.includes: substring containment. -/
def hasSub (needle : List Char) : List Char → Bool
  | [] => needle.isEmpty
  | c :: cs => leadsWith needle (c :: cs) || hasSub needle cs

/-- Character list of a string literal. -/
def cl (s : String) : List Char := s.data

/-- String from a character list. -/
def strOf (cs : List Char) : String := String.mk cs

/-! ### Numeric token parsing -/

/-- Decimal digit test. -/
def isDigitCh (ch : Char) : Bool := 48 ≤ ch.toNat && ch.toNat ≤ 57

/-- Numeric value of a decimal digit character. -/
def digitVal (ch : Char) : Nat := ch.toNat - 48

/-- Consume a maximal run of digits, returning value, digit count and rest. -/
def grabDigitsAux : List Char → Nat → Nat → Nat × Nat × List Char
  | [], acc, n => (acc, n, [])
  | c :: cs, acc, n =>
    if isDigitCh c then grabDigitsAux cs (acc * 10 + digitVal c) (n + 1)
    else (acc, n, c :: cs)

/-- Consume a maximal run of digits from the front of a list. -/
def grabDigits (l : List Char) : Nat × Nat × List Char := grabDigitsAux l 0 0

/-- Decimal value of a digit list, as parseInt does on matched digit groups. -/
def digitsToNat (l : List Char) : Nat := l.foldl (fun a ch => a * 10 + digitVal ch) 0

/-- Split off an optional leading sign, returning its value and the rest. -/
def signSplitQ (l : List Char) : ℚ × List Char :=
  match l with
  | '-' :: r => (-1, r)
  | '+' :: r => (1, r)
  | r => (1, r)

/-- Mantissa value from integer part, fraction digits value and count. -/
def mantissaVal (ip fp nf : Nat) : ℚ := (ip : ℚ) + (fp : ℚ) / 10 ^ nf

/-- Parse an exponent body (optional sign then digits), returning its value
and the unconsumed rest, or none when no digit follows. -/
def expoParse (l : List Char) : Option (Int × List Char) :=
  let sl : Int × List Char :=
    match l with
    | '-' :: r => (-1, r)
    | '+' :: r => (1, r)
    | r => (1, r)
  let g := grabDigits sl.2
  if g.2.1 = 0 then none else some (sl.1 * (g.1 : Int), g.2.2)

/-- Apply a trailing exponent marker the way parseFloat does: the marker is
consumed only when a well-formed exponent follows, otherwise ignored. -/
def applyExpo (q : ℚ) : List Char → ℚ
  | 'e' :: r =>
    (match expoParse r with
     | some p => q * (10 : ℚ) ^ p.1
     | none => q)
  | 'E' :: r =>
    (match expoParse r with
     | some p => q * (10 : ℚ) ^ p.1
     | none => q)
  | _ => q

/-- Model of parseFloat on a character list: longest valid decimal prefix,
none when no number can be read at all. -/
def parseFloatL (l : List Char) : Option ℚ :=
  let s := signSplitQ l
  let g := grabDigits s.2
  match g.2.2 with
  | '.' :: r =>
    let g2 := grabDigits r
    if g.2.1 = 0 ∧ g2.2.1 = 0 then none
    else some (applyExpo (s.1 * mantissaVal g.1 g2.1 g2.2.1) g2.2.2)
  | rest =>
    if g.2.1 = 0 then none else some (applyExpo (s.1 * (g.1 : ℚ)) rest)

/-- Strict exponent tail for the Number conversion: the whole rest of the
token must be a well-formed exponent, or nothing at all. -/
def jsExpoTail (q : ℚ) : List Char → Option ℚ
  | [] => some q
  | 'e' :: r =>
    (match expoParse r with
     | some p => if p.2.isEmpty then some (q * (10 : ℚ) ^ p.1) else none
     | none => none)
  | 'E' :: r =>
    (match expoParse r with
     | some p => if p.2.isEmpty then some (q * (10 : ℚ) ^ p.1) else none
     | none => none)
  | _ => none

/-- Strict decimal parse for the Number conversion: the whole token must be
a decimal numeral. -/
def jsNumStrict (l : List Char) : Option ℚ :=
  let s := signSplitQ l
  let g := grabDigits s.2
  match g.2.2 with
  | '.' :: r =>
    let g2 := grabDigits r
    if g.2.1 = 0 ∧ g2.2.1 = 0 then none
    else jsExpoTail (s.1 * mantissaVal g.1 g2.1 g2.2.1) g2.2.2
  | rest =>
    if g.2.1 = 0 then none else jsExpoTail (s.1 * (g.1 : ℚ)) rest

/-- Model of the Number conversion: whitespace-only converts to zero,
otherwise the whole token must be a decimal numeral. -/
def jsNumberL (l : List Char) : Option ℚ :=
  let t := trim l
  if t.isEmpty then some 0 else jsNumStrict t

/-- Remove every comma, as the cleaning step of pNum does. -/
def removeCommas (l : List Char) : List Char := l.filter (fun ch => ch ≠ ',')

/-- Model of the pNum helper: an absent or empty cell is NaN, otherwise the
cell has its commas removed, is trimmed and is given to parseFloat. -/
def pNum (o : Option (List Char)) : Option ℚ :=
  match o with
  | none => none
  | some s => if s.isEmpty then none else parseFloatL (trim (removeCommas s))

/-- Remove a single trailing letter m or M, as the chainage cleaning does. -/
def stripTrailM (l : List Char) : List Char :=
  match l.getLast? with
  | some 'm' => l.dropLast
  | some 'M' => l.dropLast
  | _ => l

/-- Remove every comma and space, as the chainage cleaning does. -/
def removeCommaSpace (l : List Char) : List Char :=
  l.filter (fun ch => ch ≠ ',' && ch ≠ ' ')

/-- Take the maximal digit run from the front of a list, returned verbatim. -/
def takeDigitsPre : List Char → List Char × List Char
  | [] => ([], [])
  | c :: cs =>
    if isDigitCh c then
      let p := takeDigitsPre cs
      (c :: p.1, p.2)
    else ([], c :: cs)

/-- Model of the anchored kilometre-plus-metre chainage pattern: digits,
a plus sign, then one to three digits ending the token. -/
def kmMatch (t : List Char) : Option (List Char × List Char) :=
  match takeDigitsPre t with
  | (ds, '+' :: rs) =>
    if ds ≠ [] ∧ rs ≠ [] ∧ rs.length ≤ 3 ∧ rs.all isDigitCh = true then some (ds, rs)
    else none
  | _ => none

/-- Model of chainageToMeters on character lists: the stationing pattern
decodes to kilometres times a thousand plus the metre remainder; otherwise
the token is cleaned and given to Number, then rounded half-up; an
unparsable token is NaN, modelled by none. -/
def chainageToMetersL (tok : List Char) : Option Int :=
  match kmMatch (trim tok) with
  | some p => some ((digitsToNat p.1 : Int) * 1000 + (digitsToNat p.2 : Int))
  | none =>
    (jsNumberL (removeCommaSpace (stripTrailM (trim tok)))).map (fun q => ⌊q + 1 / 2⌋)

/-- Model of chainageToMeters on strings. -/
def chainageToMeters (s : String) : Option Int := chainageToMetersL s.data

/-- Model of round3: multiply by a thousand, round half-up, divide back. -/
def round3 (x : ℚ) : ℚ := ((⌊x * 1000 + 1 / 2⌋ : ℤ) : ℚ) / 1000

/-! ### Cross-section geometry -/

/-- A two-dimensional point: lateral offset and elevation. -/
structure Pt where
  x : ℚ
  y : ℚ
deriving DecidableEq

instance : DecidableRel (fun p q : Pt => p.x ≤ q.x) :=
  fun p q => inferInstanceAs (Decidable (p.x ≤ q.x))

/-- Model of getIntersection: segment-segment intersection with parallel
pairs rejected and both parameters clamped to the unit interval. -/
def getIntersection (p1 p2 p3 p4 : Pt) : Option Pt :=
  let denom := (p4.y - p3.y) * (p2.x - p1.x) - (p4.x - p3.x) * (p2.y - p1.y)
  if denom = 0 then none
  else
    let ua := ((p4.x - p3.x) * (p1.y - p3.y) - (p4.y - p3.y) * (p1.x - p3.x)) / denom
    let ub := ((p2.x - p1.x) * (p1.y - p3.y) - (p2.y - p1.y) * (p1.x - p3.x)) / denom
    if 0 ≤ ua ∧ ua ≤ 1 ∧ 0 ≤ ub ∧ ub ≤ 1 then
      some ⟨p1.x + ua * (p2.x - p1.x), p1.y + ua * (p2.y - p1.y)⟩
    else none

/-- Inner loop of getInterpolatedEGL: first bracketing pair interpolates. -/
def interpPairs (x : ℚ) : List Pt → Option ℚ
  | p1 :: p2 :: rest =>
    if p1.x ≤ x ∧ x ≤ p2.x then some (p1.y + ((x - p1.x) / (p2.x - p1.x)) * (p2.y - p1.y))
    else interpPairs x (p2 :: rest)
  | _ => none

/-- Model of getInterpolatedEGL: flat extrapolation beyond the profile ends,
linear interpolation between the bracketing pair inside, with the source
final fallback returning the first elevation. -/
def getInterpolatedEGL (x : ℚ) (gp : List Pt) : ℚ :=
  match gp with
  | [] => 0
  | p0 :: rest =>
    let pl := List.getLastD (p0 :: rest) p0
    if x ≤ p0.x then p0.y
    else if pl.x ≤ x then pl.y
    else
      match interpPairs x (p0 :: rest) with
      | some y => y
      | none => p0.y

/-- The toe-search loop: scan ground segments in order and accept the first
intersection point passing the side acceptance test. -/
def scanToe (rayStart rayEnd : Pt) (accept : Pt → Bool) : List Pt → Option Pt
  | p :: q :: rest =>
    (match getIntersection rayStart rayEnd p q with
     | some pt => if accept pt then some pt else scanToe rayStart rayEnd accept (q :: rest)
     | none => scanToe rayStart rayEnd accept (q :: rest))
  | _ => none

/-- Insertion step for the model of the ECMAScript Set: keep the first
occurrence, append a genuinely new value. -/
def insertSet (a : ℚ) (l : List ℚ) : List ℚ := if a ∈ l then l else l ++ [a]

/-- Model of building a Set from a list, preserving insertion order. -/
def mkSet (l : List ℚ) : List ℚ := l.foldl (fun acc a => insertSet a acc) []

/-- The composite strip loop: for each consecutive offset pair wider than a
millimetre, sample the midpoint and add the strip area to the cut or the
fill accumulator according to the sign of road minus ground. -/
def stripLoop (road : ℚ → ℚ) (gp : List Pt) : List ℚ → ℚ → ℚ → ℚ × ℚ
  | x1 :: x2 :: rest, aC, aF =>
    if |x2 - x1| < 1 / 1000 then stripLoop road gp (x2 :: rest) aC aF
    else
      if 0 < road ((x1 + x2) / 2) - getInterpolatedEGL ((x1 + x2) / 2) gp then
        stripLoop road gp (x2 :: rest) aC
          (aF + (road ((x1 + x2) / 2) - getInterpolatedEGL ((x1 + x2) / 2) gp) * (x2 - x1))
      else
        stripLoop road gp (x2 :: rest)
          (aC + |road ((x1 + x2) / 2) - getInterpolatedEGL ((x1 + x2) / 2) gp| * (x2 - x1)) aF
  | _, aC, aF => (aC, aF)

/-- Classification of a cross-section from its raw cut and fill areas,
mirroring the if chain of the source with its default of Level. -/
inductive RowType where
  | Cut
  | Fill
  | Mixed
  | Level
deriving DecidableEq

/-- The classification chain of the source: strict thresholds at a hundredth
of a square metre, defaulting to Level. -/
def classify (aC aF : ℚ) : RowType :=
  if 1 / 100 < aC ∧ aF < 1 / 100 then RowType.Cut
  else if 1 / 100 < aF ∧ aC < 1 / 100 then RowType.Fill
  else if 1 / 100 < aC ∧ 1 / 100 < aF then RowType.Mixed
  else RowType.Level

/-! ### Per-station context and row construction -/

/-- All numeric inputs of one station after parsing and sanitisation:
formation level, the four sanitised ground elevations, and the five
caller parameters. -/
structure SectionCtx where
  fglC : ℚ
  e1 : ℚ
  e2 : ℚ
  e3 : ℚ
  e4 : ℚ
  B : ℚ
  medianWidth : ℚ
  camber : ℚ
  cutSlope : ℚ
  fillSlope : ℚ
deriving DecidableEq

/-- The four ground points at the fixed offsets, sorted by offset with the
stable insertion order of the source sort. -/
def groundPtsC (c : SectionCtx) : List Pt :=
  List.insertionSort (fun p q : Pt => p.x ≤ q.x)
    [⟨-15, c.e1⟩, ⟨-(c.medianWidth / 2), c.e2⟩, ⟨c.medianWidth / 2, c.e3⟩, ⟨15, c.e4⟩]

/-- Camber drop from crown to edge. -/
def camberDropC (c : SectionCtx) : ℚ := (c.B / 2) * (c.camber / 100)

/-- Elevation of both formation edges. -/
def fglEdge (c : SectionCtx) : ℚ := c.fglC - camberDropC c

/-- Ground elevation at the left formation edge. -/
def gLEdge (c : SectionCtx) : ℚ := getInterpolatedEGL (-(c.B / 2)) (groundPtsC c)

/-- Ground elevation at the right formation edge. -/
def gREdge (c : SectionCtx) : ℚ := getInterpolatedEGL (c.B / 2) (groundPtsC c)

/-- Ground minus road at the left edge: positive means cut. -/
def hLInt (c : SectionCtx) : ℚ := gLEdge c - fglEdge c

/-- Ground minus road at the right edge: positive means cut. -/
def hRInt (c : SectionCtx) : ℚ := gREdge c - fglEdge c

/-- Slope ratio chosen for the left side. -/
def slopeLC (c : SectionCtx) : ℚ := if 0 < hLInt c then c.cutSlope else c.fillSlope

/-- Slope ratio chosen for the right side. -/
def slopeRC (c : SectionCtx) : ℚ := if 0 < hRInt c then c.cutSlope else c.fillSlope

/-- Left slope gradient: a cut rises going outward, a fill falls. -/
def gradL (c : SectionCtx) : ℚ :=
  if 0 < hLInt c then -1 / slopeLC c else 1 / slopeLC c

/-- Right slope gradient: a cut rises going outward, a fill falls. -/
def gradR (c : SectionCtx) : ℚ :=
  if 0 < hRInt c then 1 / slopeRC c else -1 / slopeRC c

/-- The ground profile extended flat by a thousand metres on both sides. -/
def extGround (c : SectionCtx) : List Pt :=
  ⟨-1000, ((groundPtsC c).headD ⟨0, 0⟩).y⟩ ::
    (groundPtsC c ++ [⟨1000, ((groundPtsC c).getD 3 ⟨0, 0⟩).y⟩])

/-- Start and end of the left toe-search ray. -/
def rayL (c : SectionCtx) : Pt × Pt :=
  (⟨-(c.B / 2), fglEdge c⟩, ⟨-(c.B / 2) - 1000, fglEdge c + gradL c * (-1000)⟩)

/-- Start and end of the right toe-search ray. -/
def rayR (c : SectionCtx) : Pt × Pt :=
  (⟨c.B / 2, fglEdge c⟩, ⟨c.B / 2 + 1000, fglEdge c + gradR c * 1000⟩)

/-- Left toe search over the extended ground. -/
def scanL (c : SectionCtx) : Option Pt :=
  scanToe (rayL c).1 (rayL c).2 (fun p => decide (p.x ≤ -(c.B / 2) + 1 / 1000)) (extGround c)

/-- Right toe search over the extended ground. -/
def scanR (c : SectionCtx) : Option Pt :=
  scanToe (rayR c).1 (rayR c).2 (fun p => decide (c.B / 2 - 1 / 1000 ≤ p.x)) (extGround c)

/-- Left toe point, defaulting to the formation edge when the search fails. -/
def toeL (c : SectionCtx) : Pt := (scanL c).getD ⟨-(c.B / 2), gLEdge c⟩

/-- Right toe point, defaulting to the formation edge when the search fails. -/
def toeR (c : SectionCtx) : Pt := (scanR c).getD ⟨c.B / 2, gREdge c⟩

/-- The deduplicated set of integration breakpoints, in insertion order. -/
def criticalXs (c : SectionCtx) : List ℚ :=
  mkSet ([-(c.B / 2), 0, c.B / 2, (toeL c).x, (toeR c).x] ++ (groundPtsC c).map Pt.x)

/-- Breakpoints sorted ascending and clipped to the toe range with a
millimetre tolerance. -/
def sortedXs (c : SectionCtx) : List ℚ :=
  (List.insertionSort (· ≤ ·) (criticalXs c)).filter
    (fun x => decide ((toeL c).x - 1 / 1000 ≤ x) && decide (x ≤ (toeR c).x + 1 / 1000))

/-- Road elevation at a lateral offset: the side slopes outside the edges,
the camber line inside. -/
def roadYC (c : SectionCtx) (mid : ℚ) : ℚ :=
  if mid < -(c.B / 2) then fglEdge c + gradL c * (mid - -(c.B / 2))
  else if c.B / 2 < mid then fglEdge c + gradR c * (mid - c.B / 2)
  else c.fglC - (|mid| / (c.B / 2)) * camberDropC c

/-- Raw cut and fill areas of the station, before storage rounding. -/
def rawAreas (c : SectionCtx) : ℚ × ℚ :=
  stripLoop (roadYC c) (groundPtsC c) (sortedXs c) 0 0

/-- Raw cut area of the station. -/
def rawCut (c : SectionCtx) : ℚ := (rawAreas c).1

/-- Raw fill area of the station. -/
def rawFill (c : SectionCtx) : ℚ := (rawAreas c).2

/-! ### Rows, results and the full pipeline -/

/-- One computed output row, with the fields of the EarthworkRow interface. -/
structure EarthworkRow where
  chainage : String
  chainage_m : Int
  fglC : ℚ
  egl15L : ℚ
  eglMedL : ℚ
  eglMedR : ℚ
  egl15R : ℚ
  camberDrop : ℚ
  hL : ℚ
  hR : ℚ
  type : RowType
  B : ℚ
  medianWidth : ℚ
  usedSlope : ℚ
  distL : ℚ
  distR : ℚ
  bottomWidth : ℚ
  area : ℚ
  areaCut : ℚ
  areaFill : ℚ
  spacing : Option ℚ
  segVolume : ℚ
deriving DecidableEq

/-- Assembly of one first-pass row from the station context, mirroring the
rows.push call of the source including its per-field rounding. -/
def buildRow (chStr : String) (chM : Int) (c : SectionCtx) : EarthworkRow :=
  let aC := rawCut c
  let aF := rawFill c
  { chainage := chStr
    chainage_m := chM
    fglC := round3 c.fglC
    egl15L := round3 c.e1
    eglMedL := round3 c.e2
    eglMedR := round3 c.e3
    egl15R := round3 c.e4
    camberDrop := round3 (camberDropC c)
    hL := round3 (fglEdge c - gLEdge c)
    hR := round3 (fglEdge c - gREdge c)
    type := classify aC aF
    B := round3 c.B
    medianWidth := round3 c.medianWidth
    usedSlope := if 0 < hLInt c then c.cutSlope else c.fillSlope
    distL := round3 |(toeL c).x - -(c.B / 2)|
    distR := round3 |(toeR c).x - c.B / 2|
    bottomWidth := round3 ((toeR c).x - (toeL c).x)
    area := round3 (aC + aF)
    areaCut := round3 aC
    areaFill := round3 aF
    spacing := none
    segVolume := 0 }

/-- The summary totals of a calculation. -/
structure Summary where
  totalCut : ℚ
  totalFill : ℚ
  net : ℚ
deriving DecidableEq

/-- A full calculation result: rows plus summary. -/
structure CalculationResult where
  rows : List EarthworkRow
  summary : Summary
deriving DecidableEq

/-- Inferred column indices from the fuzzy header matching. -/
structure ColMap where
  ch : Option Nat := none
  fgl : Option Nat := none
  l15 : Option Nat := none
  med_l : Option Nat := none
  med_r : Option Nat := none
  r15 : Option Nat := none
  egl_generic : Option Nat := none
deriving DecidableEq

/-- One step of the header scan: the first matching rule claims the column,
later headers matching the same rule overwrite earlier ones. -/
def inferStep (cmap : ColMap) (h : List Char) (i : Nat) : ColMap :=
  if hasSub (cl "chain") h then { cmap with ch := some i }
  else if hasSub (cl "prop") h || hasSub (cl "frl") h || hasSub (cl "fgl") h then
    { cmap with fgl := some i }
  else if hasSub (cl "15m_left") h || h = cl "l15" || hasSub (cl "egl_15m_l") h then
    { cmap with l15 := some i }
  else if hasSub (cl "median_lhs") h || hasSub (cl "med_l") h then { cmap with med_l := some i }
  else if hasSub (cl "median_rhs") h || hasSub (cl "med_r") h then { cmap with med_r := some i }
  else if hasSub (cl "15m_right") h || h = cl "r15" || hasSub (cl "egl_15m_r") h then
    { cmap with r15 := some i }
  else if h = cl "egl" || hasSub (cl "ground") h then { cmap with egl_generic := some i }
  else cmap

/-- Header scan over all headers with their indices. -/
def inferColMapGo : List (List Char) → Nat → ColMap → ColMap
  | [], _, cmap => cmap
  | h :: hs, i, cmap => inferColMapGo hs (i + 1) (inferStep cmap h i)

/-- Column inference over a lower-cased header list. -/
def inferColMap (headers : List (List Char)) : ColMap := inferColMapGo headers 0 {}

/-- The lower-cased, trimmed header cells of an input text. -/
def headerCellsOf (csv : String) : List (List Char) :=
  (jsSplitCells ((jsLines csv.data).headD [])).map (fun h => toLowerL (trim h))

/-- The four raw ground cells of a data row: explicit offset columns first,
then the generic ground column, then the positional fallback, and finally
the formation level itself. -/
def eglQuad (cm : ColMap) (cols : List (List Char)) (fglC : ℚ) :
    Option ℚ × Option ℚ × Option ℚ × Option ℚ :=
  match cm.l15, cm.med_l, cm.med_r, cm.r15 with
  | some i1, some i2, some i3, some i4 =>
    (pNum cols[i1]?, pNum cols[i2]?, pNum cols[i3]?, pNum cols[i4]?)
  | _, _, _, _ =>
    match cm.egl_generic with
    | some ig => (pNum cols[ig]?, pNum cols[ig]?, pNum cols[ig]?, pNum cols[ig]?)
    | none =>
      if 6 ≤ cols.length ∧ (pNum cols[2]?).isSome ∧ (pNum cols[5]?).isSome then
        (pNum cols[2]?, pNum cols[3]?, pNum cols[4]?, pNum cols[5]?)
      else (some fglC, some fglC, some fglC, some fglC)

/-- Parse one data line into a row: rows with an unreadable chainage or
formation level are dropped, ground values cascade left to right. -/
def parseLine (cm : ColMap) (chIdx fglIdx : Nat) (B mw camber cS fS : ℚ)
    (line : List Char) : Option EarthworkRow :=
  let cols := (jsSplitCells line).map trim
  if cols.length < 2 then none
  else
    match cols[chIdx]? with
    | none => none
    | some chStr =>
      match chainageToMetersL chStr with
      | none => none
      | some chM =>
        match pNum cols[fglIdx]? with
        | none => none
        | some fglC =>
          let o := eglQuad cm cols fglC
          let e1 := o.1.getD fglC
          let e2 := o.2.1.getD e1
          let e3 := o.2.2.1.getD e2
          let e4 := o.2.2.2.getD e3
          some (buildRow (strOf chStr) chM ⟨fglC, e1, e2, e3, e4, B, mw, camber, cS, fS⟩)

/-- The first pass over the data lines of an input. -/
def firstPassOf (csv : String) (cm : ColMap) (chIdx fglIdx : Nat)
    (B mw camber cS fS : ℚ) : List EarthworkRow :=
  ((jsLines csv.data).tail).filterMap (parseLine cm chIdx fglIdx B mw camber cS fS)

/-- Spacing between two adjacent rows: the fixed override when supplied and
positive, otherwise the absolute chainage difference. -/
def effSpacing (fs : Option ℚ) (r r2 : EarthworkRow) : ℚ :=
  match fs with
  | some f => if 0 < f then f else |((r2.chainage_m : ℚ)) - ((r.chainage_m : ℚ))|
  | none => |((r2.chainage_m : ℚ)) - ((r.chainage_m : ℚ))|

/-- The mutation the second pass applies to a non-final row: store the
rounded spacing and the rounded average-end-area segment volume. -/
def updRow (fs : Option ℚ) (r r2 : EarthworkRow) : EarthworkRow :=
  { r with
    spacing := some (round3 (effSpacing fs r r2))
    segVolume := round3 (((r.area + r2.area) / 2) * effSpacing fs r r2) }

/-- The second pass: for each adjacent pair compute the average-end-area
segment volume, store it with the spacing on the earlier row, and fold the
apportioned totals; the final row is left untouched. -/
def volumePass (fs : Option ℚ) : List EarthworkRow → ℚ → ℚ → List EarthworkRow × ℚ × ℚ
  | [], tc, tf => ([], tc, tf)
  | [r], tc, tf => ([r], tc, tf)
  | r :: r2 :: rest, tc, tf =>
    let V := round3 (((r.area + r2.area) / 2) * effSpacing fs r r2)
    let tcf : ℚ × ℚ :=
      match r.type with
      | RowType.Cut => (tc + V, tf)
      | RowType.Fill => (tc, tf + V)
      | _ =>
        (tc + V * (r.areaCut / (if r.area = 0 then 1 else r.area)),
         tf + V * (r.areaFill / (if r.area = 0 then 1 else r.area)))
    let out := volumePass fs (r2 :: rest) tcf.1 tcf.2
    (updRow fs r r2 :: out.1, out.2.1, out.2.2)

/-- The row part of the second pass on its own: every non-final row is
updated with its spacing and segment volume, the final row kept as built. -/
def vpRows (fs : Option ℚ) : List EarthworkRow → List EarthworkRow
  | r :: r2 :: rest => updRow fs r r2 :: vpRows fs (r2 :: rest)
  | l => l

/-- Packaging of the second-pass output into the result record. -/
def assembleResult (fs : Option ℚ) (rows0 : List EarthworkRow) : CalculationResult :=
  { rows := (volumePass fs rows0 0 0).1
    summary :=
      { totalCut := round3 ((volumePass fs rows0 0 0).2.1)
        totalFill := round3 ((volumePass fs rows0 0 0).2.2)
        net := round3 ((volumePass fs rows0 0 0).2.1 - (volumePass fs rows0 0 0).2.2) } }

/-- Model of computeEarthwork: the fatal line-count and missing-column
checks, then the two passes. -/
def computeEarthwork (csvData : String) (B medianWidth camber cutSlope fillSlope : ℚ)
    (fixedSpacing : Option ℚ) : Except String CalculationResult :=
  if (jsLines csvData.data).length < 2 then
    Except.error "Please enter data with a header row."
  else
    match (inferColMap (headerCellsOf csvData)).ch with
    | none => Except.error "Missing Chainage column."
    | some chIdx =>
      match (inferColMap (headerCellsOf csvData)).fgl with
      | none => Except.error "Missing Proposed FRL column."
      | some fglIdx =>
        Except.ok (assembleResult fixedSpacing
          (firstPassOf csvData (inferColMap (headerCellsOf csvData)) chIdx fglIdx
            B medianWidth camber cutSlope fillSlope))

/-- The rows of a computation outcome, empty on error. -/
def rowsOf (e : Except String CalculationResult) : List EarthworkRow :=
  match e with
  | Except.ok r => r.rows
  | Except.error _ => []

/-- The result of a computation outcome, a trivial record on error. -/
def okOr (e : Except String CalculationResult) : CalculationResult :=
  match e with
  | Except.ok r => r
  | Except.error _ => { rows := [], summary := { totalCut := 0, totalFill := 0, net := 0 } }

/-- A default row value used to state closed witness instances. -/
def dRow : EarthworkRow :=
  { chainage := "", chainage_m := 0, fglC := 0, egl15L := 0, eglMedL := 0, eglMedR := 0
    egl15R := 0, camberDrop := 0, hL := 0, hR := 0, type := RowType.Level, B := 0
    medianWidth := 0, usedSlope := 0, distL := 0, distR := 0, bottomWidth := 0
    area := 0, areaCut := 0, areaFill := 0, spacing := none, segVolume := 0 }

/-! ### Concrete inputs used by instance theorems -/

/-- Scenario A input: one flat station five metres below the formation. -/
def csvA : String := "chainage,frl,egl\n0+000,100,95"

/-- The station context scenario A produces. -/
def ctxA : SectionCtx := ⟨100, 95, 95, 95, 95, 20, 7, 0, 1, 2⟩

/-- Scenario B input: two flat stations twenty metres apart. -/
def csvB : String := "chainage,frl,egl\n0,100,95\n20,100,95"

/-- The first row scenario B computes, written out as a literal. -/
def rowB0 : EarthworkRow :=
  { chainage := "0", chainage_m := 0, fglC := 100, egl15L := 95, eglMedL := 95, eglMedR := 95
    egl15R := 95, camberDrop := 0, hL := 5, hR := 5, type := RowType.Fill, B := 20
    medianWidth := 7, usedSlope := 2, distL := 10, distR := 10, bottomWidth := 40
    area := 150, areaCut := 0, areaFill := 150, spacing := some 20, segVolume := 3000 }

/-- The second row scenario B computes, written out as a literal. -/
def rowB1 : EarthworkRow :=
  { chainage := "20", chainage_m := 20, fglC := 100, egl15L := 95, eglMedL := 95, eglMedR := 95
    egl15R := 95, camberDrop := 0, hL := 5, hR := 5, type := RowType.Fill, B := 20
    medianWidth := 7, usedSlope := 2, distL := 10, distR := 10, bottomWidth := 40
    area := 150, areaCut := 0, areaFill := 150, spacing := none, segVolume := 0 }

/-- The computed result of scenario B, written out as a literal. -/
def resB : CalculationResult :=
  { rows := [rowB0, rowB1], summary := { totalCut := 0, totalFill := 3000, net := -3000 } }

/-- An input whose single station has a raw fill area just above the
classification threshold, which storage rounding pulls back to it. -/
def csvThr : String := "chainage,frl,egl\n0,95.0005,95"

/-- An input identical to scenario A except for a plain chainage token. -/
def csvFlat : String := "chainage,frl,egl\n0,100,95"

/-- A context whose fill slope is so flat that the toe ray never reaches
the ground within the synthetic extent, forcing the edge fallback. -/
def ctxFar : SectionCtx := ⟨100, 95, 95, 95, 95, 20, 7, 0, 1, 300⟩

/-- A mixed row with the apportionment figures of the worked example. -/
def rowMix : EarthworkRow :=
  { dRow with type := RowType.Mixed, area := 100, areaCut := 30, areaFill := 70 }

/-- The first computed row of scenario B, used in witness instances. -/
def rW : EarthworkRow := resB.rows.headD dRow

/-- The second computed row of scenario B, used in witness instances. -/
def rW2 : EarthworkRow := resB.rows.getD 1 dRow

/-! ### Specification-side folds used to state the volume claims -/

/-- The fields of a row the volume pass reads but never writes. -/
def staticOf (r : EarthworkRow) : ℚ × Int × RowType × ℚ × ℚ :=
  (r.area, r.chainage_m, r.type, r.areaCut, r.areaFill)

/-- Apportionment rule as the claim states it: a pure cut row sends its
whole segment volume to the cut total, a pure fill row to the fill total,
and any other row splits it in the ratio of its own cut and fill areas,
with a zero total area replaced by one as denominator. -/
def apportionSpec (r : EarthworkRow) (V : ℚ) : ℚ × ℚ :=
  match r.type with
  | RowType.Cut => (V, 0)
  | RowType.Fill => (0, V)
  | _ =>
    (V * (r.areaCut / (if r.area = 0 then 1 else r.area)),
     V * (r.areaFill / (if r.area = 0 then 1 else r.area)))

/-- Direct sum over adjacent pairs of the apportioned segment volumes,
written from the claim wording rather than as an accumulator fold. -/
def totalsSpec (fs : Option ℚ) : List EarthworkRow → ℚ × ℚ
  | r :: r2 :: rest =>
    ((apportionSpec r (round3 (((r.area + r2.area) / 2) * effSpacing fs r r2))).1 +
       (totalsSpec fs (r2 :: rest)).1,
     (apportionSpec r (round3 (((r.area + r2.area) / 2) * effSpacing fs r r2))).2 +
       (totalsSpec fs (r2 :: rest)).2)
  | _ => (0, 0)

/-! ### Rounding lemmas -/

/-- Adding a half to an integer and flooring gives the integer back. -/
theorem floor_intCast_add_half (n : ℤ) : ⌊((n : ℚ)) + 1 / 2⌋ = n := by
  rw [add_comm, Int.floor_add_int]
  norm_num

/-- Storage rounding is idempotent. -/
theorem round3_round3 (x : ℚ) : round3 (round3 x) = round3 x := by
  unfold round3
  rw [div_mul_cancel₀ ((⌊x * 1000 + 1 / 2⌋ : ℤ) : ℚ) (by norm_num : (1000 : ℚ) ≠ 0)]
  rw [floor_intCast_add_half]

/-- Storage rounding fixes integers. -/
theorem round3_intCast (n : ℤ) : round3 ((n : ℚ)) = (n : ℚ) := by
  unfold round3
  rw [show ((n : ℚ)) * 1000 = (((n * 1000 : ℤ)) : ℚ) by push_cast; ring, floor_intCast_add_half]
  push_cast
  field_simp

/-- Storage rounding fixes zero. -/
theorem round3_zero : round3 0 = 0 := by
  simpa using round3_intCast 0

/-- Storage rounding preserves nonnegativity. -/
theorem round3_nonneg {x : ℚ} (h : 0 ≤ x) : 0 ≤ round3 x := by
  unfold round3
  apply div_nonneg _ (by norm_num)
  exact_mod_cast Int.floor_nonneg.mpr (by positivity)

/-- Rounding the two parts separately differs from rounding the sum by at
most one thousandth. -/
theorem round3_add_err (a b : ℚ) : |round3 a + round3 b - round3 (a + b)| ≤ 1 / 1000 := by
  unfold round3
  have hm1 : ((⌊a * 1000 + 1 / 2⌋ : ℤ) : ℚ) ≤ a * 1000 + 1 / 2 := Int.floor_le _
  have hm2 : a * 1000 + 1 / 2 - 1 < ((⌊a * 1000 + 1 / 2⌋ : ℤ) : ℚ) := Int.sub_one_lt_floor _
  have hn1 : ((⌊b * 1000 + 1 / 2⌋ : ℤ) : ℚ) ≤ b * 1000 + 1 / 2 := Int.floor_le _
  have hn2 : b * 1000 + 1 / 2 - 1 < ((⌊b * 1000 + 1 / 2⌋ : ℤ) : ℚ) := Int.sub_one_lt_floor _
  have hk1 : ((⌊(a + b) * 1000 + 1 / 2⌋ : ℤ) : ℚ) ≤ (a + b) * 1000 + 1 / 2 := Int.floor_le _
  have hk2 : (a + b) * 1000 + 1 / 2 - 1 < ((⌊(a + b) * 1000 + 1 / 2⌋ : ℤ) : ℚ) :=
    Int.sub_one_lt_floor _
  have hub : ((⌊a * 1000 + 1 / 2⌋ + ⌊b * 1000 + 1 / 2⌋ - ⌊(a + b) * 1000 + 1 / 2⌋ : ℤ) : ℚ) < 2 := by
    push_cast
    linarith
  have hlb : (-2 : ℚ) <
      ((⌊a * 1000 + 1 / 2⌋ + ⌊b * 1000 + 1 / 2⌋ - ⌊(a + b) * 1000 + 1 / 2⌋ : ℤ) : ℚ) := by
    push_cast
    linarith
  have hub2 : (⌊a * 1000 + 1 / 2⌋ + ⌊b * 1000 + 1 / 2⌋ - ⌊(a + b) * 1000 + 1 / 2⌋ : ℤ) < 2 := by
    exact_mod_cast hub
  have hlb2 : (-2 : ℤ) < ⌊a * 1000 + 1 / 2⌋ + ⌊b * 1000 + 1 / 2⌋ - ⌊(a + b) * 1000 + 1 / 2⌋ := by
    exact_mod_cast hlb
  have habs : |((⌊a * 1000 + 1 / 2⌋ + ⌊b * 1000 + 1 / 2⌋ - ⌊(a + b) * 1000 + 1 / 2⌋ : ℤ) : ℚ)| ≤ 1 := by
    have : |(⌊a * 1000 + 1 / 2⌋ + ⌊b * 1000 + 1 / 2⌋ - ⌊(a + b) * 1000 + 1 / 2⌋ : ℤ)| ≤ 1 := by
      rw [abs_le]
      omega
    calc |((⌊a * 1000 + 1 / 2⌋ + ⌊b * 1000 + 1 / 2⌋ - ⌊(a + b) * 1000 + 1 / 2⌋ : ℤ) : ℚ)|
        = ((|⌊a * 1000 + 1 / 2⌋ + ⌊b * 1000 + 1 / 2⌋ - ⌊(a + b) * 1000 + 1 / 2⌋| : ℤ) : ℚ) := by
          push_cast
          rfl
      _ ≤ 1 := by exact_mod_cast this
  have heq : ((⌊a * 1000 + 1 / 2⌋ : ℤ) : ℚ) / 1000 + ((⌊b * 1000 + 1 / 2⌋ : ℤ) : ℚ) / 1000 -
      ((⌊(a + b) * 1000 + 1 / 2⌋ : ℤ) : ℚ) / 1000 =
      ((⌊a * 1000 + 1 / 2⌋ + ⌊b * 1000 + 1 / 2⌋ - ⌊(a + b) * 1000 + 1 / 2⌋ : ℤ) : ℚ) / 1000 := by
    push_cast
    ring
  rw [heq, abs_div, abs_of_pos (by norm_num : (0 : ℚ) < 1000)]
  linarith

/-- When a rounded sum of nonnegative parts is zero, both rounded parts are
zero as well. -/
theorem round3_parts_zero {a b : ℚ} (ha : 0 ≤ a) (hb : 0 ≤ b)
    (h : round3 (a + b) = 0) : round3 a = 0 ∧ round3 b = 0 := by
  unfold round3 at h ⊢
  have hk : ⌊(a + b) * 1000 + 1 / 2⌋ = 0 := by
    have := div_eq_zero_iff.mp h
    rcases this with h1 | h1
    · exact_mod_cast h1
    · norm_num at h1
  have hlt : (a + b) * 1000 + 1 / 2 < 1 := by
    have := Int.lt_floor_add_one ((a + b) * 1000 + 1 / 2)
    rw [hk] at this
    simpa using this
  constructor
  · have h0 : ⌊a * 1000 + 1 / 2⌋ = 0 := by
      rw [Int.floor_eq_zero_iff, Set.mem_Ico]
      exact ⟨by linarith, by linarith⟩
    rw [h0]
    norm_num
  · have h0 : ⌊b * 1000 + 1 / 2⌋ = 0 := by
      rw [Int.floor_eq_zero_iff, Set.mem_Ico]
      exact ⟨by linarith, by linarith⟩
    rw [h0]
    norm_num

/-! ### Claim C1: end-to-end scenario A -/

/-- C1: for the station with formation width twenty, zero camber, crown
elevation one hundred, all four grounds at ninety-five, cut slope one and
fill slope two, the computed row treats both sides as fill (both edge
height differentials are negative and the used slope is the fill slope),
the toes sit at offsets minus twenty and plus twenty, the toe distances
from the edges are ten each, the bottom width is forty, the fill area is
one hundred and fifty, the cut area is zero and the type is Fill. -/
theorem C1_scenarioA :
    rowsOf (computeEarthwork csvA 20 7 0 1 2 none) = [buildRow "0+000" 0 ctxA] ∧
    hLInt ctxA < 0 ∧ hRInt ctxA < 0 ∧
    toeL ctxA = ⟨-20, 95⟩ ∧ toeR ctxA = ⟨20, 95⟩ ∧
    (buildRow "0+000" 0 ctxA).type = RowType.Fill ∧
    (buildRow "0+000" 0 ctxA).areaFill = 150 ∧
    (buildRow "0+000" 0 ctxA).areaCut = 0 ∧
    (buildRow "0+000" 0 ctxA).distL = 10 ∧
    (buildRow "0+000" 0 ctxA).distR = 10 ∧
    (buildRow "0+000" 0 ctxA).bottomWidth = 40 ∧
    (buildRow "0+000" 0 ctxA).usedSlope = 2 :=
  of_decide_eq_true (by with_unfolding_all rfl)

/-! ### Claim C10: inputs with fewer than two usable lines abort -/

/-- C10: whenever the input text holds fewer than two nonempty lines, the
computation throws the header-row error before any column inference. -/
theorem C10_fewLines (csv : String) (B mw camber cS fS : ℚ) (fs : Option ℚ)
    (h : (jsLines csv.data).length < 2) :
    computeEarthwork csv B mw camber cS fS fs =
      Except.error "Please enter data with a header row." := by
  unfold computeEarthwork
  rw [if_pos h]

/-- C10 witness: a header-only input aborts with the header-row error. -/
theorem C10_fewLines_witness :
    computeEarthwork "chainage,frl,egl" 20 7 0 1 2 none =
      Except.error "Please enter data with a header row." :=
  C10_fewLines "chainage,frl,egl" 20 7 0 1 2 none (by decide)

/-! ### Claim C7: missing required columns abort -/

/-- C7: when the inferred column map lacks the chainage column or the
formation-level column, the computation fails with an error, so no rows
are ever produced for such a header. -/
theorem C7_missingColumn (csv : String) (B mw camber cS fS : ℚ) (fs : Option ℚ)
    (h2 : ¬ (jsLines csv.data).length < 2)
    (hcols : (inferColMap (headerCellsOf csv)).ch = none ∨
      (inferColMap (headerCellsOf csv)).fgl = none) :
    ∃ msg, computeEarthwork csv B mw camber cS fS fs = Except.error msg := by
  unfold computeEarthwork
  rw [if_neg h2]
  rcases hcols with h | h
  · rw [h]
    exact ⟨_, rfl⟩
  · rcases hch : (inferColMap (headerCellsOf csv)).ch with _ | i
    · exact ⟨_, rfl⟩
    · rw [h]
      exact ⟨_, rfl⟩

/-- C7 witness: a two-line input whose header names match no rule aborts. -/
theorem C7_missingColumn_witness :
    ∃ msg, computeEarthwork "foo,bar\n1,2" 20 7 0 1 2 none = Except.error msg :=
  C7_missingColumn "foo,bar\n1,2" 20 7 0 1 2 none (by decide) (Or.inl (by decide))

/-! ### Claim C4: classification thresholds -/

/-- C4 counterexample: the input with formation level at ninety-five point
zero zero zero five produces a computed row whose stored cut and fill areas
are both at most a hundredth yet whose type is Fill, not Level, because
classification reads the areas before storage rounding. -/
theorem C4_counterexample :
    (rowsOf (computeEarthwork csvThr 20 1 0 1 2 none)).map
      (fun r => (r.type, decide (r.areaCut ≤ 1 / 100 ∧ r.areaFill ≤ 1 / 100))) =
    [(RowType.Fill, true)] := by with_unfolding_all rfl

/-! ### Claim C6: chainage decoding -/

/-- A digit character is not whitespace. -/
theorem not_ws_of_digit {ch : Char} (h : isDigitCh ch = true) : isWs ch = false := by
  simp only [isDigitCh, Bool.and_eq_true, decide_eq_true_eq] at h
  obtain ⟨h1, _⟩ := h
  have hs : ch ≠ ' ' := by intro he; subst he; exact absurd h1 (by decide)
  have ht : ch ≠ '\t' := by intro he; subst he; exact absurd h1 (by decide)
  have hn : ch ≠ '\n' := by intro he; subst he; exact absurd h1 (by decide)
  have hr : ch ≠ '\r' := by intro he; subst he; exact absurd h1 (by decide)
  have hv : ch ≠ '\x0b' := by intro he; subst he; exact absurd h1 (by decide)
  have hf : ch ≠ '\x0c' := by intro he; subst he; exact absurd h1 (by decide)
  simp [isWs, hs, ht, hn, hr, hv, hf]

/-- Dropping whitespace from a list with none leaves it unchanged. -/
theorem dropWhile_isWs_of_forall {l : List Char} (h : ∀ ch ∈ l, isWs ch = false) :
    l.dropWhile isWs = l := by
  cases l with
  | nil => rfl
  | cons c cs =>
    have := h c (by simp)
    simp [List.dropWhile_cons, this]

/-- Trimming a list without whitespace leaves it unchanged. -/
theorem trim_of_forall {l : List Char} (h : ∀ ch ∈ l, isWs ch = false) : trim l = l := by
  unfold trim
  rw [dropWhile_isWs_of_forall h,
    dropWhile_isWs_of_forall (fun ch hch => h ch (List.mem_reverse.mp hch)),
    List.reverse_reverse]

/-- The digit-run splitter consumes exactly a digit block followed by a
plus sign. -/
theorem takeDigitsPre_digits_plus (ds rs : List Char) (hds : ds.all isDigitCh = true) :
    takeDigitsPre (ds ++ '+' :: rs) = (ds, '+' :: rs) := by
  induction ds with
  | nil =>
    show takeDigitsPre ('+' :: rs) = ([], '+' :: rs)
    simp only [takeDigitsPre]
    rw [if_neg (by decide)]
  | cons c cs ih =>
    simp only [List.all_cons, Bool.and_eq_true] at hds
    simp only [List.cons_append, takeDigitsPre, hds.1, if_true]
    rw [show cs.append ('+' :: rs) = cs ++ '+' :: rs from rfl, ih hds.2]

/-- The stationing pattern matches a digit block, a plus sign and a one to
three digit remainder. -/
theorem kmMatch_km (ds rs : List Char) (hds : ds ≠ []) (hdsd : ds.all isDigitCh = true)
    (hrs : rs ≠ []) (hlen : rs.length ≤ 3) (hrsd : rs.all isDigitCh = true) :
    kmMatch (ds ++ '+' :: rs) = some (ds, rs) := by
  unfold kmMatch
  rw [takeDigitsPre_digits_plus ds rs hdsd]
  simp [hds, hrs, hlen, hrsd]

/-- C6: the chainage decoder maps the four example tokens as documented,
decodes every digits-plus-remainder token to the kilometre digits value
times a thousand plus the remainder value, decodes a cleaned plain numeric
token to its value rounded half-up to whole metres, and yields the NaN
sentinel on an unparsable token. -/
theorem C6_chainage :
    chainageToMeters "0+020" = some 20 ∧
    chainageToMeters "1+005" = some 1005 ∧
    chainageToMeters "250" = some 250 ∧
    chainageToMeters "12,500m" = some 12500 ∧
    chainageToMeters "20.5" = some 21 ∧
    chainageToMeters "abc" = none ∧
    (∀ ds rs : List Char, ds ≠ [] → ds.all isDigitCh = true → rs ≠ [] → rs.length ≤ 3 →
      rs.all isDigitCh = true →
      chainageToMetersL (ds ++ '+' :: rs) =
        some ((digitsToNat ds : Int) * 1000 + (digitsToNat rs : Int))) ∧
    (∀ (t : List Char) (q : ℚ), kmMatch (trim t) = none →
      jsNumberL (removeCommaSpace (stripTrailM (trim t))) = some q →
      chainageToMetersL t = some ⌊q + 1 / 2⌋) := by
  refine ⟨?_, ?_, ?_, ?_, ?_, ?_, ?_, ?_⟩
  · with_unfolding_all rfl
  · with_unfolding_all rfl
  · with_unfolding_all rfl
  · with_unfolding_all rfl
  · with_unfolding_all rfl
  · with_unfolding_all rfl
  · intro ds rs h1 h2 h3 h4 h5
    have hall : ∀ ch ∈ ds ++ '+' :: rs, isWs ch = false := by
      intro ch hch
      rcases List.mem_append.mp hch with h | h
      · exact not_ws_of_digit (List.all_eq_true.mp h2 ch h)
      · rcases List.mem_cons.mp h with h | h
        · subst h; decide
        · exact not_ws_of_digit (List.all_eq_true.mp h5 ch h)
    unfold chainageToMetersL
    rw [trim_of_forall hall, kmMatch_km ds rs h1 h2 h3 h4 h5]
  · intro t q hkm hnum
    unfold chainageToMetersL
    rw [hkm, hnum]
    rfl

/-- C6 witness: the general stationing clause applied to a concrete token. -/
theorem C6_chainage_witness :
    chainageToMetersL (['2'] ++ '+' :: ['0', '5', '0']) =
      some ((digitsToNat ['2'] : Int) * 1000 + (digitsToNat ['0', '5', '0'] : Int)) :=
  C6_chainage.2.2.2.2.2.2.1 ['2'] ['0', '5', '0']
    (by decide) (by decide) (by decide) (by decide) (by decide)

/-! ### Claim C9: toe points never sit inside the formation edges -/

/-- An accepted intersection point lies on the cast ray with a clamped
parameter. -/
theorem getIntersection_param {p1 p2 p3 p4 pt : Pt}
    (h : getIntersection p1 p2 p3 p4 = some pt) :
    ∃ ua : ℚ, 0 ≤ ua ∧ ua ≤ 1 ∧ pt.x = p1.x + ua * (p2.x - p1.x) := by
  simp only [getIntersection] at h
  split at h
  · exact absurd h (by simp)
  · split at h
    next hcond =>
      refine ⟨_, hcond.1, hcond.2.1, ?_⟩
      rw [← Option.some.inj h]
    next => exact absurd h (by simp)

/-- Any point the toe scan returns comes from an accepted intersection of
the cast ray with some ground segment. -/
theorem scanToe_shape (rayS rayE : Pt) (acc : Pt → Bool) :
    ∀ (l : List Pt) (pt : Pt), scanToe rayS rayE acc l = some pt →
      ∃ p q, getIntersection rayS rayE p q = some pt := by
  intro l
  induction l with
  | nil => intro pt h; simp [scanToe] at h
  | cons p rest ih =>
    cases rest with
    | nil => intro pt h; simp [scanToe] at h
    | cons q rest2 =>
      intro pt h
      simp only [scanToe] at h
      split at h
      next pt0 hgi =>
        split at h
        · exact ⟨p, q, by rw [hgi, h]⟩
        · exact ih pt h
      next hgi => exact ih pt h

/-- C9: on every station the left toe offset is at most the left formation
edge and the right toe offset is at least the right one; when a toe scan
finds no acceptable intersection the toe is exactly the formation edge
point over the ground elevation there. -/
theorem C9_toeBounds (c : SectionCtx) :
    (toeL c).x ≤ -(c.B / 2) ∧ c.B / 2 ≤ (toeR c).x ∧
    (scanL c = none → toeL c = ⟨-(c.B / 2), gLEdge c⟩) ∧
    (scanR c = none → toeR c = ⟨c.B / 2, gREdge c⟩) := by
  refine ⟨?_, ?_, fun h => by simp [toeL, h], fun h => by simp [toeR, h]⟩
  · unfold toeL
    cases hs : scanL c with
    | none => simp
    | some pt =>
      simp only [Option.getD_some]
      unfold scanL at hs
      obtain ⟨p, q, hgi⟩ := scanToe_shape _ _ _ _ _ hs
      obtain ⟨ua, h0, h1, hx⟩ := getIntersection_param hgi
      have e1 : (rayL c).1.x = -(c.B / 2) := rfl
      have e2 : (rayL c).2.x = -(c.B / 2) - 1000 := rfl
      rw [hx, e1, e2]
      nlinarith
  · unfold toeR
    cases hs : scanR c with
    | none => simp
    | some pt =>
      simp only [Option.getD_some]
      unfold scanR at hs
      obtain ⟨p, q, hgi⟩ := scanToe_shape _ _ _ _ _ hs
      obtain ⟨ua, h0, h1, hx⟩ := getIntersection_param hgi
      have e1 : (rayR c).1.x = c.B / 2 := rfl
      have e2 : (rayR c).2.x = c.B / 2 + 1000 := rfl
      rw [hx, e1, e2]
      nlinarith

/-- C9 witness: on the context whose fill slope never reaches the ground
both scans fail and both toes collapse to the formation edges. -/
theorem C9_toeBounds_witness :
    (toeL ctxFar).x ≤ -(ctxFar.B / 2) ∧ ctxFar.B / 2 ≤ (toeR ctxFar).x ∧
    toeL ctxFar = ⟨-(ctxFar.B / 2), gLEdge ctxFar⟩ ∧
    toeR ctxFar = ⟨ctxFar.B / 2, gREdge ctxFar⟩ := by
  have h := C9_toeBounds ctxFar
  exact ⟨h.1, h.2.1, h.2.2.1 (by with_unfolding_all rfl),
    h.2.2.2 (by with_unfolding_all rfl)⟩

/-! ### Structure of the two passes -/

/-- Every accepted line produces exactly a first-pass row built from some
station context. -/
theorem parseLine_shape {cm : ColMap} {chIdx fglIdx : Nat} {B mw camber cS fS : ℚ}
    {line : List Char} {r : EarthworkRow}
    (h : parseLine cm chIdx fglIdx B mw camber cS fS line = some r) :
    ∃ s chM c, r = buildRow s chM c := by
  simp only [parseLine] at h
  split at h
  · exact absurd h (by simp)
  · split at h
    · exact absurd h (by simp)
    · split at h
      · exact absurd h (by simp)
      · split at h
        · exact absurd h (by simp)
        · exact ⟨_, _, _, (Option.some.inj h).symm⟩

/-- The accumulators never influence which rows the second pass emits. -/
theorem vp_rows_eq (fs : Option ℚ) :
    ∀ (rs : List EarthworkRow) (tc tf : ℚ), (volumePass fs rs tc tf).1 = vpRows fs rs
  | [], _, _ => rfl
  | [_], _, _ => rfl
  | r :: r2 :: rest, tc, tf => by
    simp only [volumePass]
    rw [vp_rows_eq fs (r2 :: rest)]
    rfl

/-- The second pass leaves the static fields of every row unchanged. -/
theorem vpRows_staticList (fs : Option ℚ) :
    ∀ rs : List EarthworkRow, (vpRows fs rs).map staticOf = rs.map staticOf
  | [] => rfl
  | [_] => rfl
  | r :: r2 :: rest => by
    have ih := vpRows_staticList fs (r2 :: rest)
    rw [show vpRows fs (r :: r2 :: rest) = updRow fs r r2 :: vpRows fs (r2 :: rest) from rfl,
      List.map_cons, ih]
    rfl

/-- The second pass keeps the final row exactly as the first pass built it. -/
theorem vpRows_getLast (fs : Option ℚ) :
    ∀ rs : List EarthworkRow, (vpRows fs rs).getLast? = rs.getLast?
  | [] => rfl
  | [_] => rfl
  | r :: r2 :: rest => by
    have ih := vpRows_getLast fs (r2 :: rest)
    rw [show vpRows fs (r :: r2 :: rest) = updRow fs r r2 :: vpRows fs (r2 :: rest) from rfl]
    rcases h : vpRows fs (r2 :: rest) with _ | ⟨y, ys⟩
    · cases rest <;> simp [vpRows] at h
    · rw [List.getLast?_cons_cons, ← h, ih]
      exact (List.getLast?_cons_cons).symm

/-- A property closed under the second-pass update holds of every output
row when it holds of every input row. -/
theorem vpRows_preserve (P : EarthworkRow → Prop)
    (hupd : ∀ fs r r2, P r → P (updRow fs r r2)) (fs : Option ℚ) :
    ∀ rs : List EarthworkRow, (∀ r ∈ rs, P r) → ∀ r ∈ vpRows fs rs, P r
  | [], _ => by simp [vpRows]
  | [r], h => by simpa [vpRows] using h
  | r :: r2 :: rest, h => by
    intro x hx
    rw [show vpRows fs (r :: r2 :: rest) = updRow fs r r2 :: vpRows fs (r2 :: rest) from rfl] at hx
    rcases List.mem_cons.mp hx with hx | hx
    · subst hx
      exact hupd fs r r2 (h r (by simp))
    · exact vpRows_preserve P hupd fs (r2 :: rest)
        (fun y hy => h y (List.mem_cons_of_mem _ hy)) x hx

/-- Spacing only reads the chainage fields of the two rows. -/
theorem effSpacing_congr {r r2 s s2 : EarthworkRow} (fs : Option ℚ)
    (h1 : r.chainage_m = s.chainage_m) (h2 : r2.chainage_m = s2.chainage_m) :
    effSpacing fs r r2 = effSpacing fs s s2 := by
  unfold effSpacing
  rw [h1, h2]

/-- Apportionment only reads the static fields of the row. -/
theorem apportionSpec_congr {r s : EarthworkRow} (h : staticOf r = staticOf s) (V : ℚ) :
    apportionSpec r V = apportionSpec s V := by
  simp only [staticOf, Prod.mk.injEq] at h
  obtain ⟨ha, _, ht, hac, haf⟩ := h
  unfold apportionSpec
  rw [ht, ha, hac, haf]

/-- The specification fold of the totals only reads static fields. -/
theorem totalsSpec_congr (fs : Option ℚ) :
    ∀ l1 l2 : List EarthworkRow, l1.map staticOf = l2.map staticOf →
      totalsSpec fs l1 = totalsSpec fs l2
  | [], l2, h => by
    cases l2 with
    | nil => rfl
    | cons s l2a => simp at h
  | [r], l2, h => by
    cases l2 with
    | nil => simp at h
    | cons s l2a =>
      cases l2a with
      | nil => rfl
      | cons s2 l2b => simp at h
  | r :: r2 :: rest, l2, h => by
    cases l2 with
    | nil => simp at h
    | cons s l2a =>
      cases l2a with
      | nil => simp at h
      | cons s2 rest2 =>
        simp only [List.map_cons, List.cons.injEq] at h
        obtain ⟨h1, h2, h3⟩ := h
        have ih := totalsSpec_congr fs (r2 :: rest) (s2 :: rest2)
          (by simp only [List.map_cons, List.cons.injEq]; exact ⟨h2, h3⟩)
        have h1c := h1
        have h2c := h2
        simp only [staticOf, Prod.mk.injEq] at h1c h2c
        have hV : round3 (((r.area + r2.area) / 2) * effSpacing fs r r2) =
            round3 (((s.area + s2.area) / 2) * effSpacing fs s s2) := by
          rw [h1c.1, h2c.1, effSpacing_congr fs h1c.2.1 h2c.2.1]
        simp only [totalsSpec]
        rw [ih, hV, apportionSpec_congr h1]

/-- The totals of the second pass are the start accumulators plus the
specification sums. -/
theorem vp_totals (fs : Option ℚ) :
    ∀ (rs : List EarthworkRow) (tc tf : ℚ),
      (volumePass fs rs tc tf).2.1 = tc + (totalsSpec fs rs).1 ∧
      (volumePass fs rs tc tf).2.2 = tf + (totalsSpec fs rs).2
  | [], tc, tf => by simp [volumePass, totalsSpec]
  | [r], tc, tf => by simp [volumePass, totalsSpec]
  | r :: r2 :: rest, tc, tf => by
    have ih := vp_totals fs (r2 :: rest)
    rcases ht : r.type with _ | _ | _ | _ <;>
      simp only [volumePass, totalsSpec, apportionSpec, ht] <;>
      rw [(ih _ _).1, (ih _ _).2] <;>
      constructor <;> ring

/-- Adjacent output rows of the second pass carry exactly the rounded
spacing and the rounded average-end-area volume of their pair. -/
theorem vpRows_pairs (fs : Option ℚ) :
    ∀ (rs : List EarthworkRow) (i : Nat) (r r2 : EarthworkRow),
      (vpRows fs rs)[i]? = some r → (vpRows fs rs)[i + 1]? = some r2 →
      r.spacing = some (round3 (effSpacing fs r r2)) ∧
      r.segVolume = round3 (((r.area + r2.area) / 2) * effSpacing fs r r2)
  | [], i, r, r2 => by
    intro h _
    simp [vpRows] at h
  | [a], i, r, r2 => by
    intro h1 h2
    rcases i with _ | j
    · simp [vpRows] at h2
    · simp [vpRows] at h1
  | a :: b :: rest, i, r, r2 => by
    intro h1 h2
    rw [show vpRows fs (a :: b :: rest) = updRow fs a b :: vpRows fs (b :: rest) from rfl]
      at h1 h2
    rcases i with _ | j
    · have hr : updRow fs a b = r := by simpa using h1
      have h2a : (vpRows fs (b :: rest))[0]? = some r2 := by simpa using h2
      have hst : staticOf r2 = staticOf b := by
        have hmap := congrArg (fun l => l[0]?) (vpRows_staticList fs (b :: rest))
        simp only [List.getElem?_map, h2a] at hmap
        simpa using hmap
      simp only [staticOf, Prod.mk.injEq] at hst
      subst hr
      have heff : effSpacing fs (updRow fs a b) r2 = effSpacing fs a b :=
        effSpacing_congr fs rfl hst.2.1
      constructor
      · rw [heff]
        exact rfl
      · rw [heff, hst.1]
        exact rfl
    · have h1a : (vpRows fs (b :: rest))[j]? = some r := by simpa using h1
      have h2a : (vpRows fs (b :: rest))[j + 1]? = some r2 := by simpa using h2
      exact vpRows_pairs fs (b :: rest) j r r2 h1a h2a

/-- Successful computations are exactly the assembly of the two passes
over rows built from station contexts. -/
theorem computeEarthwork_ok_shape {csv : String} {B mw camber cS fS : ℚ} {fs : Option ℚ}
    {res : CalculationResult}
    (hres : computeEarthwork csv B mw camber cS fS fs = Except.ok res) :
    ∃ rows0 : List EarthworkRow,
      (∀ r ∈ rows0, ∃ s chM c, r = buildRow s chM c) ∧ res = assembleResult fs rows0 := by
  unfold computeEarthwork at hres
  split at hres
  · exact absurd hres (by simp)
  · split at hres
    · exact absurd hres (by simp)
    next chIdx heq =>
      split at hres
      · exact absurd hres (by simp)
      next fglIdx heq2 =>
        refine ⟨firstPassOf csv (inferColMap (headerCellsOf csv)) chIdx fglIdx
          B mw camber cS fS, ?_, ?_⟩
        · intro r hr
          simp only [firstPassOf] at hr
          obtain ⟨ln, _, hpl⟩ := List.mem_filterMap.mp hr
          exact parseLine_shape hpl
        · exact (Except.ok.inj hres).symm

/-! ### Strip areas are nonnegative -/

/-- The strip loop never decreases either accumulator over a sorted
offset list. -/
theorem stripLoop_ge (road : ℚ → ℚ) (gp : List Pt) :
    ∀ (xs : List ℚ) (aC aF : ℚ), List.Pairwise (· ≤ ·) xs →
      aC ≤ (stripLoop road gp xs aC aF).1 ∧ aF ≤ (stripLoop road gp xs aC aF).2
  | [], aC, aF, _ => by simp [stripLoop]
  | [x], aC, aF, _ => by simp [stripLoop]
  | x1 :: x2 :: rest, aC, aF, hp => by
    have h12 : x1 ≤ x2 := (List.pairwise_cons.mp hp).1 x2 (by simp)
    have hp2 : List.Pairwise (· ≤ ·) (x2 :: rest) := (List.pairwise_cons.mp hp).2
    simp only [stripLoop]
    split_ifs with hskip hh
    · exact stripLoop_ge road gp (x2 :: rest) aC aF hp2
    · have ih := stripLoop_ge road gp (x2 :: rest) aC
        (aF + (road ((x1 + x2) / 2) - getInterpolatedEGL ((x1 + x2) / 2) gp) * (x2 - x1)) hp2
      refine ⟨ih.1, le_trans ?_ ih.2⟩
      have hw : 0 ≤ (road ((x1 + x2) / 2) - getInterpolatedEGL ((x1 + x2) / 2) gp) * (x2 - x1) :=
        mul_nonneg hh.le (by linarith)
      linarith
    · have ih := stripLoop_ge road gp (x2 :: rest)
        (aC + |road ((x1 + x2) / 2) - getInterpolatedEGL ((x1 + x2) / 2) gp| * (x2 - x1)) aF hp2
      refine ⟨le_trans ?_ ih.1, ih.2⟩
      have hw : 0 ≤ |road ((x1 + x2) / 2) - getInterpolatedEGL ((x1 + x2) / 2) gp| * (x2 - x1) :=
        mul_nonneg (abs_nonneg _) (by linarith)
      linarith

/-- The integration breakpoints are sorted ascending after sort and clip. -/
theorem sortedXs_pairwise (c : SectionCtx) : List.Pairwise (· ≤ ·) (sortedXs c) := by
  unfold sortedXs
  exact List.Pairwise.sublist (List.filter_sublist _)
    (List.sorted_insertionSort (· ≤ ·) (criticalXs c))

/-- The raw cut area of every station is nonnegative. -/
theorem rawCut_nonneg (c : SectionCtx) : 0 ≤ rawCut c := by
  unfold rawCut rawAreas
  exact (stripLoop_ge (roadYC c) (groundPtsC c) (sortedXs c) 0 0 (sortedXs_pairwise c)).1

/-- The raw fill area of every station is nonnegative. -/
theorem rawFill_nonneg (c : SectionCtx) : 0 ≤ rawFill c := by
  unfold rawFill rawAreas
  exact (stripLoop_ge (roadYC c) (groundPtsC c) (sortedXs c) 0 0 (sortedXs_pairwise c)).2

/-- Scenario B evaluates to its literal result. -/
theorem resB_eq : computeEarthwork csvB 20 7 0 1 2 none = Except.ok resB := by
  with_unfolding_all rfl

/-! ### Claim C8: stored values and rounding -/

/-- C8 counterexample: with a fill slope of two point zero zero zero five
the computed row stores that slope unrounded in usedSlope, so re-rounding
that stored field changes it. -/
theorem C8_counterexample :
    (rowsOf (computeEarthwork csvFlat 20 7 0 1 (2.0005 : ℚ) none)).map
      (fun r => decide (round3 r.usedSlope = r.usedSlope)) = [false] := by
  with_unfolding_all rfl

/-- C8 as amended: every numeric field of a computed row except usedSlope
is a fixed point of the storage rounding: the rounded fields are rounded
at the point of storage, the integral chainage and the zero initial
segment volume are trivially fixed, and a stored spacing is a rounded
value; the usedSlope field alone is stored as the raw caller slope. -/
theorem C8_roundedFields (csv : String) (B mw camber cS fS : ℚ) (fs : Option ℚ)
    (res : CalculationResult)
    (hres : computeEarthwork csv B mw camber cS fS fs = Except.ok res) :
    ∀ r ∈ res.rows,
      round3 r.fglC = r.fglC ∧ round3 r.egl15L = r.egl15L ∧ round3 r.eglMedL = r.eglMedL ∧
      round3 r.eglMedR = r.eglMedR ∧ round3 r.egl15R = r.egl15R ∧
      round3 r.camberDrop = r.camberDrop ∧ round3 r.hL = r.hL ∧ round3 r.hR = r.hR ∧
      round3 r.B = r.B ∧ round3 r.medianWidth = r.medianWidth ∧
      round3 r.distL = r.distL ∧ round3 r.distR = r.distR ∧
      round3 r.bottomWidth = r.bottomWidth ∧ round3 r.area = r.area ∧
      round3 r.areaCut = r.areaCut ∧ round3 r.areaFill = r.areaFill ∧
      round3 ((r.chainage_m : ℚ)) = ((r.chainage_m : ℚ)) ∧
      (∀ q, r.spacing = some q → round3 q = q) ∧
      round3 r.segVolume = r.segVolume := by
  obtain ⟨rows0, hmem, rfl⟩ := computeEarthwork_ok_shape hres
  have hrows : (assembleResult fs rows0).rows = vpRows fs rows0 := vp_rows_eq fs rows0 0 0
  intro r hr
  rw [hrows] at hr
  refine vpRows_preserve
    (fun r => round3 r.fglC = r.fglC ∧ round3 r.egl15L = r.egl15L ∧
      round3 r.eglMedL = r.eglMedL ∧ round3 r.eglMedR = r.eglMedR ∧
      round3 r.egl15R = r.egl15R ∧ round3 r.camberDrop = r.camberDrop ∧
      round3 r.hL = r.hL ∧ round3 r.hR = r.hR ∧ round3 r.B = r.B ∧
      round3 r.medianWidth = r.medianWidth ∧ round3 r.distL = r.distL ∧
      round3 r.distR = r.distR ∧ round3 r.bottomWidth = r.bottomWidth ∧
      round3 r.area = r.area ∧ round3 r.areaCut = r.areaCut ∧
      round3 r.areaFill = r.areaFill ∧
      round3 ((r.chainage_m : ℚ)) = ((r.chainage_m : ℚ)) ∧
      (∀ q, r.spacing = some q → round3 q = q) ∧
      round3 r.segVolume = r.segVolume) ?_ fs rows0 ?_ r hr
  · intro fs2 a b hP
    refine ⟨hP.1, hP.2.1, hP.2.2.1, hP.2.2.2.1, hP.2.2.2.2.1, hP.2.2.2.2.2.1,
      hP.2.2.2.2.2.2.1, hP.2.2.2.2.2.2.2.1, hP.2.2.2.2.2.2.2.2.1,
      hP.2.2.2.2.2.2.2.2.2.1, hP.2.2.2.2.2.2.2.2.2.2.1, hP.2.2.2.2.2.2.2.2.2.2.2.1,
      hP.2.2.2.2.2.2.2.2.2.2.2.2.1, hP.2.2.2.2.2.2.2.2.2.2.2.2.2.1,
      hP.2.2.2.2.2.2.2.2.2.2.2.2.2.2.1, hP.2.2.2.2.2.2.2.2.2.2.2.2.2.2.2.1,
      hP.2.2.2.2.2.2.2.2.2.2.2.2.2.2.2.2.1, ?_, ?_⟩
    · intro q hq
      injection hq with h
      rw [← h]
      exact round3_round3 _
    · exact round3_round3 _
  · intro r0 hr0
    obtain ⟨s, chM, c, rfl⟩ := hmem r0 hr0
    exact ⟨round3_round3 _, round3_round3 _, round3_round3 _, round3_round3 _,
      round3_round3 _, round3_round3 _, round3_round3 _, round3_round3 _,
      round3_round3 _, round3_round3 _, round3_round3 _, round3_round3 _,
      round3_round3 _, round3_round3 _, round3_round3 _, round3_round3 _,
      round3_intCast chM, fun q hq => Option.noConfusion hq, round3_zero⟩

/-- C8 witness: the amended statement instantiated on the first row of
scenario B. -/
theorem C8_roundedFields_witness :
    round3 rW.fglC = rW.fglC ∧ round3 rW.egl15L = rW.egl15L ∧
    round3 rW.eglMedL = rW.eglMedL ∧ round3 rW.eglMedR = rW.eglMedR ∧
    round3 rW.egl15R = rW.egl15R ∧ round3 rW.camberDrop = rW.camberDrop ∧
    round3 rW.hL = rW.hL ∧ round3 rW.hR = rW.hR ∧ round3 rW.B = rW.B ∧
    round3 rW.medianWidth = rW.medianWidth ∧ round3 rW.distL = rW.distL ∧
    round3 rW.distR = rW.distR ∧ round3 rW.bottomWidth = rW.bottomWidth ∧
    round3 rW.area = rW.area ∧ round3 rW.areaCut = rW.areaCut ∧
    round3 rW.areaFill = rW.areaFill ∧
    round3 ((rW.chainage_m : ℚ)) = ((rW.chainage_m : ℚ)) ∧
    (∀ q, rW.spacing = some q → round3 q = q) ∧
    round3 rW.segVolume = rW.segVolume :=
  C8_roundedFields csvB 20 7 0 1 2 none resB resB_eq rW (List.mem_cons_self _ _)

/-! ### Claim C5: area decomposition -/

/-- C5: every computed row has nonnegative cut and fill areas, and their
sum differs from the stored total area by at most one thousandth, the
tolerance the separate three-decimal roundings can introduce. -/
theorem C5_areaDecomposition (csv : String) (B mw camber cS fS : ℚ) (fs : Option ℚ)
    (res : CalculationResult)
    (hres : computeEarthwork csv B mw camber cS fS fs = Except.ok res) :
    ∀ r ∈ res.rows,
      0 ≤ r.areaCut ∧ 0 ≤ r.areaFill ∧ |r.areaCut + r.areaFill - r.area| ≤ 1 / 1000 := by
  obtain ⟨rows0, hmem, rfl⟩ := computeEarthwork_ok_shape hres
  have hrows : (assembleResult fs rows0).rows = vpRows fs rows0 := vp_rows_eq fs rows0 0 0
  intro r hr
  rw [hrows] at hr
  refine vpRows_preserve
    (fun r => 0 ≤ r.areaCut ∧ 0 ≤ r.areaFill ∧
      |r.areaCut + r.areaFill - r.area| ≤ 1 / 1000) ?_ fs rows0 ?_ r hr
  · intro fs2 a b hP
    exact hP
  · intro r0 hr0
    obtain ⟨s, chM, c, rfl⟩ := hmem r0 hr0
    exact ⟨round3_nonneg (rawCut_nonneg c), round3_nonneg (rawFill_nonneg c),
      round3_add_err (rawCut c) (rawFill c)⟩

/-- C5 witness: the invariant instantiated on the first row of scenario B. -/
theorem C5_areaDecomposition_witness :
    0 ≤ rW.areaCut ∧ 0 ≤ rW.areaFill ∧ |rW.areaCut + rW.areaFill - rW.area| ≤ 1 / 1000 :=
  C5_areaDecomposition csvB 20 7 0 1 2 none resB resB_eq rW (List.mem_cons_self _ _)

/-! ### Claim C2: average-end-area volumes -/

/-- C2: in every computed result, each adjacent row pair stores on the
earlier row the rounded spacing and the rounded average-end-area segment
volume for that spacing, where the spacing is the positive caller override
when supplied and the absolute chainage difference otherwise; the final
row keeps a zero segment volume and no spacing. -/
theorem C2_avgEndArea (csv : String) (B mw camber cS fS : ℚ) (fs : Option ℚ)
    (res : CalculationResult)
    (hres : computeEarthwork csv B mw camber cS fS fs = Except.ok res) :
    (∀ (i : Nat) (r r2 : EarthworkRow),
      res.rows[i]? = some r → res.rows[i + 1]? = some r2 →
      r.spacing = some (round3 (effSpacing fs r r2)) ∧
      r.segVolume = round3 (((r.area + r2.area) / 2) * effSpacing fs r r2)) ∧
    (∀ r, res.rows.getLast? = some r → r.segVolume = 0 ∧ r.spacing = none) := by
  obtain ⟨rows0, hmem, rfl⟩ := computeEarthwork_ok_shape hres
  have hrows : (assembleResult fs rows0).rows = vpRows fs rows0 := vp_rows_eq fs rows0 0 0
  constructor
  · intro i r r2 h1 h2
    rw [hrows] at h1 h2
    exact vpRows_pairs fs rows0 i r r2 h1 h2
  · intro r hlast
    rw [hrows, vpRows_getLast fs rows0] at hlast
    have hmem2 : r ∈ rows0 := List.mem_of_getLast?_eq_some hlast
    obtain ⟨s, chM, c, rfl⟩ := hmem r hmem2
    exact ⟨rfl, rfl⟩

/-- C2 witness: the pair clause instantiated on the two rows of scenario B,
whose spacing is twenty and segment volume three thousand. -/
theorem C2_avgEndArea_witness :
    (rW.spacing = some (round3 (effSpacing none rW rW2)) ∧
      rW.segVolume = round3 (((rW.area + rW2.area) / 2) * effSpacing none rW rW2)) ∧
    rW.segVolume = 3000 := by
  have h := C2_avgEndArea csvB 20 7 0 1 2 none resB resB_eq
  refine ⟨h.1 0 rW rW2 ?_ ?_, ?_⟩
  · with_unfolding_all rfl
  · with_unfolding_all rfl
  · with_unfolding_all rfl

/-! ### Claim C3: apportionment of segment volumes -/

/-- C3: the summary totals are the rounded sums over adjacent pairs of the
apportioned segment volumes, where a pure cut row sends its whole volume
to the cut total, a pure fill row to the fill total, and any other row
splits it by its own area ratio with a zero total area replaced by one as
denominator; on computed rows a zero stored area forces both stored part
areas to zero, so zero volume is apportioned there, and the worked
example row with area one hundred, cut thirty and fill seventy splits a
volume of fifty into fifteen and thirty-five. -/
theorem C3_apportionment (csv : String) (B mw camber cS fS : ℚ) (fs : Option ℚ)
    (res : CalculationResult)
    (hres : computeEarthwork csv B mw camber cS fS fs = Except.ok res) :
    res.summary.totalCut = round3 (totalsSpec fs res.rows).1 ∧
    res.summary.totalFill = round3 (totalsSpec fs res.rows).2 ∧
    (∀ r ∈ res.rows, r.area = 0 → r.areaCut = 0 ∧ r.areaFill = 0) ∧
    apportionSpec rowMix 50 = (15, 35) := by
  obtain ⟨rows0, hmem, rfl⟩ := computeEarthwork_ok_shape hres
  have hrows : (assembleResult fs rows0).rows = vpRows fs rows0 := vp_rows_eq fs rows0 0 0
  have hcongr : totalsSpec fs (vpRows fs rows0) = totalsSpec fs rows0 :=
    totalsSpec_congr fs (vpRows fs rows0) rows0 (vpRows_staticList fs rows0)
  refine ⟨?_, ?_, ?_, ?_⟩
  · show round3 ((volumePass fs rows0 0 0).2.1) =
      round3 (totalsSpec fs (assembleResult fs rows0).rows).1
    rw [(vp_totals fs rows0 0 0).1, hrows, hcongr, zero_add]
  · show round3 ((volumePass fs rows0 0 0).2.2) =
      round3 (totalsSpec fs (assembleResult fs rows0).rows).2
    rw [(vp_totals fs rows0 0 0).2, hrows, hcongr, zero_add]
  · intro r hr
    rw [hrows] at hr
    refine vpRows_preserve
      (fun r => r.area = 0 → r.areaCut = 0 ∧ r.areaFill = 0) ?_ fs rows0 ?_ r hr
    · intro fs2 a b hP
      exact hP
    · intro r0 hr0
      obtain ⟨s, chM, c, rfl⟩ := hmem r0 hr0
      intro h0
      exact round3_parts_zero (rawCut_nonneg c) (rawFill_nonneg c) h0
  · with_unfolding_all rfl

/-- C3 witness: the totals refinement instantiated on scenario B. -/
theorem C3_apportionment_witness :
    resB.summary.totalCut = round3 (totalsSpec none resB.rows).1 ∧
    resB.summary.totalFill = round3 (totalsSpec none resB.rows).2 := by
  have h := C3_apportionment csvB 20 7 0 1 2 none resB resB_eq
  exact ⟨h.1, h.2.1⟩

/-! ### Claim C4 as amended: classification against the raw areas -/

/-- C4 as amended: classification is computed from the unrounded areas,
with strict thresholds: a row is Cut exactly when the raw cut area exceeds
a hundredth while the raw fill area is below it, Fill symmetrically, Mixed
exactly when both exceed it, and Level in every remaining case — in
particular when both raw areas are at most a hundredth, but also when one
area sits exactly on the threshold while the other exceeds it. -/
theorem C4_classifyRaw (c : SectionCtx) (s : String) (chM : Int) :
    ((buildRow s chM c).type = RowType.Cut ↔
      1 / 100 < rawCut c ∧ rawFill c < 1 / 100) ∧
    ((buildRow s chM c).type = RowType.Fill ↔
      1 / 100 < rawFill c ∧ rawCut c < 1 / 100) ∧
    ((buildRow s chM c).type = RowType.Mixed ↔
      1 / 100 < rawCut c ∧ 1 / 100 < rawFill c) ∧
    ((buildRow s chM c).type = RowType.Level ↔
      ¬(1 / 100 < rawCut c ∧ rawFill c < 1 / 100) ∧
      ¬(1 / 100 < rawFill c ∧ rawCut c < 1 / 100) ∧
      ¬(1 / 100 < rawCut c ∧ 1 / 100 < rawFill c)) := by
  have ht : (buildRow s chM c).type = classify (rawCut c) (rawFill c) := rfl
  rw [ht]
  unfold classify
  split_ifs with h1 h2 h3
  · exact ⟨⟨fun _ => h1, fun _ => rfl⟩,
      ⟨fun hx => absurd hx (by decide), fun hx => absurd h1.2 (by linarith [hx.1])⟩,
      ⟨fun hx => absurd hx (by decide), fun hx => absurd h1.2 (by linarith [hx.2])⟩,
      ⟨fun hx => absurd hx (by decide), fun hx => absurd h1 hx.1⟩⟩
  · exact ⟨⟨fun hx => absurd hx (by decide), fun hx => absurd hx h1⟩,
      ⟨fun _ => h2, fun _ => rfl⟩,
      ⟨fun hx => absurd hx (by decide), fun hx => absurd h2.2 (by linarith [hx.1])⟩,
      ⟨fun hx => absurd hx (by decide), fun hx => absurd h2 hx.2.1⟩⟩
  · exact ⟨⟨fun hx => absurd hx (by decide), fun hx => absurd hx h1⟩,
      ⟨fun hx => absurd hx (by decide), fun hx => absurd hx h2⟩,
      ⟨fun _ => h3, fun _ => rfl⟩,
      ⟨fun hx => absurd hx (by decide), fun hx => absurd h3 hx.2.2⟩⟩
  · exact ⟨⟨fun hx => absurd hx (by decide), fun hx => absurd hx h1⟩,
      ⟨fun hx => absurd hx (by decide), fun hx => absurd hx h2⟩,
      ⟨fun hx => absurd hx (by decide), fun hx => absurd hx h3⟩,
      ⟨fun _ => ⟨h1, h2, h3⟩, fun _ => rfl⟩⟩

end Earthwork
